import Mathlib

/-!
# Verification of the financial analyzer (fin-analyst-agent)

Shallow embedding of `src/financial_analyzer.py` (class `FinancialAnalyzer`)
and the ratio construction of `src/data_collector.py`
(`YahooFinanceCollector.get_fundamental_data`), with proofs of the spec
claims about them.

Modelling conventions:
* Python `float` values are modelled as rationals `ℚ`; a value that is
  `None` (or pandas `NaN`, which `pd.notna` rejects) is modelled as `none`
  in `Option ℚ`.
* Python `round(x, k)` is modelled as rounding `x * 10^k` to an integer and
  dividing back.  (CPython uses round-half-to-even on binary floats; no
  claim here exercises a half-way case, and both the code embedding and the
  spec-side definitions use the same rounding model, so the tie-breaking
  direction is irrelevant to every theorem below.)
* Python's builtin `sorted` is specified (and implemented) as a *stable*
  sort; it is modelled by a stable insertion sort `sortDescBy`, where
  `gt y x = true` means `y` is strictly above `x` in the sort key, so that
  an element is inserted before every element it ties with that came later
  in the input, exactly the stability guarantee of `sorted(reverse=True)`.
-/

/-- `round(x, 2)` of Python: round to 2 decimal places. -/
def round2 (x : ℚ) : ℚ := ((x * 100 + 1/2).floor : ℚ) / 100

/-- `round(x, 1)` of Python: round to 1 decimal place
(used on the ranking score). -/
def round1 (x : ℚ) : ℚ := ((x * 10 + 1/2).floor : ℚ) / 10

/-- One fundamental-data record as built by
`YahooFinanceCollector.get_fundamental_data` (`src/data_collector.py`),
restricted to the fields the analyzer reads.  The Python `quarter` field is
the string `"Q1"`..`"Q4"`; on those four strings Python's lexicographic
string order coincides with the numeric order of the quarter number, so the
quarter is modelled by that number. -/
structure FundRecord where
  year : Int
  quarter : Nat
  revenue : Option ℚ
  operating_income : Option ℚ
  ebit_margin : Option ℚ
  deriving DecidableEq, Repr

/-- Stable descending insertion: `x` is placed before the first element
that is not strictly above it (so before everything it ties with). -/
def insertDescBy (gt : α → α → Bool) (x : α) : List α → List α
  | [] => [x]
  | y :: ys => if gt y x then y :: insertDescBy gt x ys else x :: y :: ys

/-- Stable descending sort, modelling Python `sorted(..., reverse=True)`:
elements later in the input are inserted after everything strictly above
them and after nothing they tie with, so ties keep input order. -/
def sortDescBy (gt : α → α → Bool) : List α → List α
  | [] => []
  | x :: xs => insertDescBy gt x (sortDescBy gt xs)

/-- Strict order on the sort key `(year, quarter)` used by
`calculate_revenue_growth`: `fundGT y x` iff `y`'s key is strictly above
`x`'s. -/
def fundGT (y x : FundRecord) : Bool :=
  decide (x.year < y.year ∨ (x.year = y.year ∧ x.quarter < y.quarter))

/-- `FinancialAnalyzer.calculate_revenue_growth`
(`src/financial_analyzer.py`, lines 10–39).  The `try`/`except` around the
arithmetic can never fire for real numbers once `previous_quarter > 0`, so
it has no counterpart here. -/
def calculate_revenue_growth (fundamental_data : List FundRecord) : Option ℚ :=
  if fundamental_data.length < 2 then none
  else
    let sorted_data := sortDescBy fundGT fundamental_data
    let revenues := sorted_data.filterMap (·.revenue)
    match revenues with
    | current_quarter :: previous_quarter :: _ =>
      if previous_quarter ≤ 0 then none
      else some (round2 ((current_quarter - previous_quarter) / previous_quarter * 100))
    | _ => none

/-- The dict `{'avg_margin': ...}` returned by `analyze_ebit_margin_trend`. -/
structure EbitAnalysis where
  avg_margin : Option ℚ
  deriving DecidableEq, Repr

/-- `FinancialAnalyzer.analyze_ebit_margin_trend`
(`src/financial_analyzer.py`, lines 41–54); `np.mean` is the sum divided by
the count. -/
def analyze_ebit_margin_trend (fundamental_data : List FundRecord) : EbitAnalysis :=
  match fundamental_data with
  | [] => ⟨none⟩
  | _ =>
    let margins := fundamental_data.filterMap (·.ebit_margin)
    match margins with
    | [] => ⟨none⟩
    | _ => ⟨some (round2 (margins.sum / margins.length))⟩

/-- One row of the price `DataFrame` produced by
`get_daily_price_data`, restricted to the moving-average columns the
analyzer reads; a `NaN` entry (rejected by `pd.notna`) is `none`. -/
structure TechRow where
  ma_20 : Option ℚ
  ma_50 : Option ℚ
  ma_200 : Option ℚ
  deriving DecidableEq, Repr

/-- The dict returned by `analyze_technical_indicators`. -/
structure TechResult where
  ma_20 : Option ℚ
  ma_50 : Option ℚ
  ma_200 : Option ℚ
  price_vs_ma20 : Option ℚ
  price_vs_ma50 : Option ℚ
  price_vs_ma200 : Option ℚ
  ma50_rising : Bool
  deriving DecidableEq, Repr

/-- The all-`None`/`False` dict returned on empty input, missing current
price, or any caught exception (`src/financial_analyzer.py`, lines 60–69
and 100–110). -/
def degradedTech : TechResult :=
  { ma_20 := none, ma_50 := none, ma_200 := none,
    price_vs_ma20 := none, price_vs_ma50 := none, price_vs_ma200 := none,
    ma50_rising := false }

/-- The Python pattern `round(v, 2) if v else None` applied to an optional
deviation `v`: a `None` stays `None`, and a *zero* value is falsy in
Python, so it also maps to `None`. -/
def truthyRound2 (v : Option ℚ) : Option ℚ :=
  match v with
  | none => none
  | some x => if x = 0 then none else some (round2 x)

/-- `FinancialAnalyzer.analyze_technical_indicators`
(`src/financial_analyzer.py`, lines 56–110).  `technical_data.iloc[-1]` is
the last row, `iloc[-10]` is the row at index `len - 10`.  The function is
total here, mirroring the code's catch-all `except` which prevents any
fault from propagating; a present moving average is a real number, so the
divisions in the `try` block cannot fault. -/
def analyze_technical_indicators (technical_data : List TechRow)
    (current_price : Option ℚ) : TechResult :=
  match current_price with
  | none => degradedTech
  | some p =>
    match technical_data.getLast? with
    | none => degradedTech
    | some latest_data =>
      let ma_20 := latest_data.ma_20
      let ma_50 := latest_data.ma_50
      let ma_200 := latest_data.ma_200
      let price_vs_ma20 := ma_20.map (fun m => (p - m) / m * 100)
      let price_vs_ma50 := ma_50.map (fun m => (p - m) / m * 100)
      let price_vs_ma200 := ma_200.map (fun m => (p - m) / m * 100)
      let ma50_rising :=
        if 10 ≤ technical_data.length then
          match ma_50 with
          | some m =>
            match (technical_data.get? (technical_data.length - 10)).bind (·.ma_50) with
            | some m10 => decide (m10 < m)
            | none => false
          | none => false
        else false
      { ma_20 := ma_20.map round2,
        ma_50 := ma_50.map round2,
        ma_200 := ma_200.map round2,
        price_vs_ma20 := truthyRound2 price_vs_ma20,
        price_vs_ma50 := truthyRound2 price_vs_ma50,
        price_vs_ma200 := truthyRound2 price_vs_ma200,
        ma50_rising := ma50_rising }

/-- `FinancialAnalyzer.calculate_ranking_score`
(`src/financial_analyzer.py`, lines 112–155), with the `score += ...`
accumulation written as a sum of the three `if`/`elif` chains. -/
def calculate_ranking_score (revenue_growth : Option ℚ)
    (ebit_analysis : EbitAnalysis) (technical_analysis : TechResult) : ℚ :=
  let score1 : ℚ :=
    match revenue_growth with
    | none => 0
    | some g => if g ≥ 10 then 40 else if g ≥ 5 then 30 else if g ≥ 0 then 20 else 0
  let score2 : ℚ :=
    match ebit_analysis.avg_margin with
    | none => 0
    | some m =>
      if m ≥ 25 then 40 else if m ≥ 20 then 35 else if m ≥ 15 then 30
      else if m ≥ 10 then 20 else if m ≥ 5 then 10 else 0
  let score3 : ℚ := if technical_analysis.ma50_rising then 20 else 0
  round1 (score1 + score2 + score3)

/-- Spec-side revenue-growth component of the ranking score, written from
the spec's bucket table (claim C1). -/
def revGrowthComponent (rg : Option ℚ) : ℚ :=
  match rg with
  | none => 0
  | some g => if 10 ≤ g then 40 else if 5 ≤ g then 30 else if 0 ≤ g then 20 else 0

/-- Spec-side EBIT-margin component of the ranking score, written from the
spec's bucket table (claim C1). -/
def ebitMarginComponent (m? : Option ℚ) : ℚ :=
  match m? with
  | none => 0
  | some m =>
    if 25 ≤ m then 40 else if 20 ≤ m then 35 else if 15 ≤ m then 30
    else if 10 ≤ m then 20 else if 5 ≤ m then 10 else 0

/-- Spec-side MA50 component of the ranking score (claim C1). -/
def ma50Component (rising : Bool) : ℚ := if rising then 20 else 0

theorem ratFloor_eq_intFloor (q : ℚ) : q.floor = ⌊q⌋ := rfl

/-- C1: the ranking score is the sum of the three independent spec
components, each of which is 0 on an absent input. -/
theorem ranking_score_is_sum_of_components (rg : Option ℚ)
    (e : EbitAnalysis) (t : TechResult) :
    calculate_ranking_score rg e t =
      revGrowthComponent rg + ebitMarginComponent e.avg_margin
        + ma50Component t.ma50_rising ∧
    revGrowthComponent none = 0 ∧ ebitMarginComponent none = 0 ∧
    ma50Component false = 0 := by
  refine ⟨?_, rfl, rfl, rfl⟩
  rcases e with ⟨am⟩
  rcases t with ⟨m20, m50, m200, p1, p2, p3, rising⟩
  rcases rg with _ | g <;> rcases am with _ | m <;> cases rising <;>
    simp only [calculate_ranking_score, revGrowthComponent, ebitMarginComponent,
      ma50Component] <;>
    split_ifs <;> simp only [round1, ratFloor_eq_intFloor] <;> norm_num

/-- C2: the ranking score always lies in `[0, 100]`, and it is exactly 100
when growth ≥ 10, margin ≥ 25 and MA50 is rising. -/
theorem ranking_score_bounded (rg : Option ℚ)
    (e : EbitAnalysis) (t : TechResult) :
    (0 ≤ calculate_ranking_score rg e t ∧ calculate_ranking_score rg e t ≤ 100) ∧
    (∀ g m, rg = some g → 10 ≤ g → e.avg_margin = some m → 25 ≤ m →
      t.ma50_rising = true → calculate_ranking_score rg e t = 100) := by
  constructor
  · rcases e with ⟨am⟩
    rcases t with ⟨m20, m50, m200, p1, p2, p3, rising⟩
    rcases rg with _ | g <;> rcases am with _ | m <;> cases rising <;>
      simp only [calculate_ranking_score] <;> split_ifs <;>
      simp only [round1, ratFloor_eq_intFloor] <;> norm_num
  · rintro g m rfl h10 hm h25 hrise
    simp only [calculate_ranking_score, hm, hrise, if_pos h10, if_pos h25, if_true]
    simp only [round1, ratFloor_eq_intFloor]
    norm_num

/-- Witness for C2 at growth 12, margin 30, rising MA50. -/
theorem ranking_score_bounded_witness :
    calculate_ranking_score (some 12) ⟨some 30⟩
      ⟨none, none, none, none, none, none, true⟩ = 100 :=
  (ranking_score_bounded (some 12) ⟨some 30⟩
      ⟨none, none, none, none, none, none, true⟩).2 12 30 rfl (by norm_num)
    rfl (by norm_num) rfl

/-- The dict returned by `FinancialAnalyzer.analyze_stock`
(`src/financial_analyzer.py`, lines 177–193).  The Python dict has no
`rank` key until `rank_stocks` adds it, which is modelled by an
`Option Nat` field that is `none` until then. -/
structure StockAnalysis where
  symbol : String
  revenue_growth_4q : Option ℚ
  avg_ebit_margin : Option ℚ
  current_price : Option ℚ
  ma_20 : Option ℚ
  ma_50 : Option ℚ
  ma_200 : Option ℚ
  price_vs_ma20 : Option ℚ
  price_vs_ma50 : Option ℚ
  price_vs_ma200 : Option ℚ
  ma50_rising : Bool
  ebit_trend_details : EbitAnalysis
  technical_details : TechResult
  ranking_score : ℚ
  recommendation : String
  rank : Option Nat
  deriving DecidableEq, Repr

/-- `FinancialAnalyzer.analyze_stock`
(`src/financial_analyzer.py`, lines 157–193): runs the three analyses, the
scorer, and the recommendation `if`/`elif` chain on the ranking score. -/
def analyze_stock (symbol : String) (fundamental_data : List FundRecord)
    (technical_data : List TechRow) (current_price : Option ℚ) : StockAnalysis :=
  let revenue_growth := calculate_revenue_growth fundamental_data
  let ebit_analysis := analyze_ebit_margin_trend fundamental_data
  let technical_analysis := analyze_technical_indicators technical_data current_price
  let ranking_score := calculate_ranking_score revenue_growth ebit_analysis technical_analysis
  let recommendation :=
    if ranking_score ≥ 80 then "STRONG BUY"
    else if ranking_score ≥ 60 then "BUY"
    else if ranking_score ≥ 40 then "HOLD"
    else "SELL"
  { symbol := symbol,
    revenue_growth_4q := revenue_growth,
    avg_ebit_margin := ebit_analysis.avg_margin,
    current_price := current_price,
    ma_20 := technical_analysis.ma_20,
    ma_50 := technical_analysis.ma_50,
    ma_200 := technical_analysis.ma_200,
    price_vs_ma20 := technical_analysis.price_vs_ma20,
    price_vs_ma50 := technical_analysis.price_vs_ma50,
    price_vs_ma200 := technical_analysis.price_vs_ma200,
    ma50_rising := technical_analysis.ma50_rising,
    ebit_trend_details := ebit_analysis,
    technical_details := technical_analysis,
    ranking_score := ranking_score,
    recommendation := recommendation,
    rank := none }

/-- Spec-side recommendation mapping, a function of the score alone
(claim C3). -/
def recommendationOf (s : ℚ) : String :=
  if 80 ≤ s then "STRONG BUY"
  else if 60 ≤ s then "BUY"
  else if 40 ≤ s then "HOLD"
  else "SELL"

/-- C3: the recommendation of `analyze_stock` is the pure function
`recommendationOf` of its ranking score, whose buckets are
`≥ 80 ↦ STRONG BUY`, `[60, 80) ↦ BUY`, `[40, 60) ↦ HOLD`, `< 40 ↦ SELL`;
in particular 79.9 maps to BUY and 80 to STRONG BUY. -/
theorem recommendation_is_pure_function_of_score (symbol : String)
    (fund : List FundRecord) (tech : List TechRow) (cp : Option ℚ) :
    (analyze_stock symbol fund tech cp).recommendation
      = recommendationOf (analyze_stock symbol fund tech cp).ranking_score ∧
    (∀ s : ℚ, 80 ≤ s → recommendationOf s = "STRONG BUY") ∧
    (∀ s : ℚ, 60 ≤ s → s < 80 → recommendationOf s = "BUY") ∧
    (∀ s : ℚ, 40 ≤ s → s < 60 → recommendationOf s = "HOLD") ∧
    (∀ s : ℚ, s < 40 → recommendationOf s = "SELL") ∧
    recommendationOf (799/10) = "BUY" ∧ recommendationOf 80 = "STRONG BUY" := by
  refine ⟨rfl, ?_, ?_, ?_, ?_, by norm_num [recommendationOf], by norm_num [recommendationOf]⟩
  · intro s h
    simp only [recommendationOf, if_pos h]
  · intro s h60 h80
    simp only [recommendationOf, if_neg (not_le.mpr h80), if_pos h60]
  · intro s h40 h60
    have h80 : ¬ (80 : ℚ) ≤ s := not_le.mpr (h60.trans_le (by norm_num))
    simp only [recommendationOf, if_neg h80, if_neg (not_le.mpr h60), if_pos h40]
  · intro s h40
    have h80 : ¬ (80 : ℚ) ≤ s := not_le.mpr (h40.trans_le (by norm_num))
    have h60 : ¬ (60 : ℚ) ≤ s := not_le.mpr (h40.trans_le (by norm_num))
    simp only [recommendationOf, if_neg h80, if_neg h60, if_neg (not_le.mpr h40)]

/-- Witness for C3 on a concrete stock and a concrete score. -/
theorem recommendation_is_pure_function_of_score_witness :
    (analyze_stock "AAPL" [] [] none).recommendation
      = recommendationOf (analyze_stock "AAPL" [] [] none).ranking_score ∧
    recommendationOf 85 = "STRONG BUY" :=
  ⟨(recommendation_is_pure_function_of_score "AAPL" [] [] none).1,
    (recommendation_is_pure_function_of_score "AAPL" [] [] none).2.1 85 (by norm_num)⟩

theorem insertDescBy_perm (gt : α → α → Bool) (x : α) (l : List α) :
    (insertDescBy gt x l).Perm (x :: l) := by
  induction l with
  | nil => exact List.Perm.refl _
  | cons y ys ih =>
    unfold insertDescBy
    by_cases h : gt y x
    · rw [if_pos h]
      exact (ih.cons y).trans (List.Perm.swap x y ys)
    · rw [if_neg h]

theorem sortDescBy_perm (gt : α → α → Bool) (l : List α) :
    (sortDescBy gt l).Perm l := by
  induction l with
  | nil => exact List.Perm.refl _
  | cons x xs ih =>
    exact (insertDescBy_perm gt x (sortDescBy gt xs)).trans (ih.cons x)

theorem sortDescBy_length (gt : α → α → Bool) (l : List α) :
    (sortDescBy gt l).length = l.length :=
  (sortDescBy_perm gt l).length_eq

/-- Spec-side revenue growth, written from the spec's words (claim C4):
absent when fewer than two records carry a present revenue; otherwise the
rounded percentage change from the next-most-recent to the most recent
present revenue, absent when the base is non-positive. -/
def revenueGrowthSpec (l : List FundRecord) : Option ℚ :=
  let presentRevenues := (sortDescBy fundGT l).filterMap (·.revenue)
  match presentRevenues with
  | current :: previous :: _ =>
    if previous ≤ 0 then none
    else some (round2 ((current - previous) / previous * 100))
  | _ => none

/-- C4: `calculate_revenue_growth` computes exactly the spec-side revenue
growth (the code's early return on fewer than two records is subsumed by
the fewer-than-two-present-revenues case). -/
theorem calculate_revenue_growth_eq_spec (l : List FundRecord) :
    calculate_revenue_growth l = revenueGrowthSpec l := by
  unfold calculate_revenue_growth revenueGrowthSpec
  by_cases h : l.length < 2
  · rw [if_pos h]
    have hlen : ((sortDescBy fundGT l).filterMap (·.revenue)).length < 2 :=
      lt_of_le_of_lt (List.length_filterMap_le _ _)
        (by rw [sortDescBy_length]; exact h)
    rcases hrev : (sortDescBy fundGT l).filterMap (·.revenue) with _ | ⟨a, _ | ⟨b, rest⟩⟩
    · simp only [hrev]
    · simp only [hrev]
    · rw [hrev, List.length_cons, List.length_cons] at hlen
      omega
  · rw [if_neg h]

/-- The `ebit_margin` computation of
`YahooFinanceCollector.get_fundamental_data`
(`src/data_collector.py`, line 63):
`(operating_income / revenue * 100) if revenue and operating_income else None`.
Python truthiness makes `None` *and the float `0.0`* falsy, so the guard
demands both operands present *and nonzero*. -/
def ebit_margin_of (operating_income revenue : Option ℚ) : Option ℚ :=
  match revenue, operating_income with
  | some r, some oi => if r ≠ 0 ∧ oi ≠ 0 then some (oi / r * 100) else none
  | _, _ => none

/-- C5 (counterexample to the claim): a present operating income of zero
with a present nonzero revenue yields an *absent* margin, not the number 0,
because the truthiness guard `if revenue and operating_income` also rejects
a zero operating income; the surrounding cases behave as claimed. -/
theorem ebit_margin_drops_zero_operating_income :
    ebit_margin_of (some 0) (some 100) = none ∧
    ebit_margin_of (some 50) (some 200) = some (50 / 200 * 100) ∧
    ebit_margin_of none (some 100) = none ∧
    ebit_margin_of (some 50) none = none ∧
    ebit_margin_of (some 50) (some 0) = none := by
  refine ⟨?_, ?_, rfl, rfl, ?_⟩
  · simp [ebit_margin_of]
  · simp [ebit_margin_of]
  · simp [ebit_margin_of]

/-- C6 (counterexample to the claim): with the latest `MA_20` present and
equal to the current price, the deviation is the number 0 but the returned
`price_vs_ma20` is *absent*, because `round(x, 2) if x else None` treats
the float `0.0` as falsy; a nonzero deviation (here vs `MA_50 = 90`) is
rounded and returned as claimed. -/
theorem price_vs_ma_drops_zero_deviation :
    (analyze_technical_indicators [⟨some 100, some 90, none⟩] (some 100)).price_vs_ma20
        = none ∧
    (analyze_technical_indicators [⟨some 100, some 90, none⟩] (some 100)).ma_20
        = some 100 ∧
    (analyze_technical_indicators [⟨some 100, some 90, none⟩] (some 100)).price_vs_ma50
        = some (1111 / 100) ∧
    (analyze_technical_indicators [⟨some 100, some 90, none⟩] (some 100)).price_vs_ma200
        = none := by
  refine ⟨?_, ?_, ?_, ?_⟩ <;>
    norm_num [analyze_technical_indicators, truthyRound2, round2, ratFloor_eq_intFloor]

theorem ma50_rising_eq (rows : List TechRow) (p : ℚ) (latest : TechRow)
    (hlast : rows.getLast? = some latest) :
    (analyze_technical_indicators rows (some p)).ma50_rising =
      if 10 ≤ rows.length then
        match latest.ma_50 with
        | some m =>
          match (rows.get? (rows.length - 10)).bind (·.ma_50) with
          | some m10 => decide (m10 < m)
          | none => false
        | none => false
      else false := by
  simp only [analyze_technical_indicators, hlast]

/-- C7: `ma50Rising` is false whenever the sequence has fewer than 10
points, or the latest `ma50` is absent, or the `ma50` ten points back is
absent; with all three prerequisites it is true iff the latest `ma50`
strictly exceeds the one ten points back. -/
theorem ma50_rising_characterization (rows : List TechRow) (p : ℚ) :
    ((rows.length < 10 ∨ rows.getLast?.bind (·.ma_50) = none ∨
        (rows.get? (rows.length - 10)).bind (·.ma_50) = none) →
      (analyze_technical_indicators rows (some p)).ma50_rising = false) ∧
    (∀ m m10 : ℚ, 10 ≤ rows.length →
      rows.getLast?.bind (·.ma_50) = some m →
      (rows.get? (rows.length - 10)).bind (·.ma_50) = some m10 →
      ((analyze_technical_indicators rows (some p)).ma50_rising = true ↔ m10 < m)) := by
  cases hlast : rows.getLast? with
  | none =>
    have hnil : rows = [] := List.getLast?_eq_none_iff.mp hlast
    subst hnil
    constructor
    · intro _
      rfl
    · intro m m10 hlen _ _
      simp at hlen
  | some latest =>
    rw [ma50_rising_eq rows p latest hlast]
    constructor
    · intro h
      rcases h with hlen | hnone | hnone10
      · rw [if_neg (by omega)]
      · simp only [Option.some_bind] at hnone
        simp [hnone]
      · cases hm : latest.ma_50 with
        | none => simp
        | some m =>
          rw [hnone10]
          simp
    · intro m m10 hlen hm hm10
      simp only [Option.some_bind] at hm
      rw [if_pos hlen, hm, hm10]
      simp

/-- Witness for C7: ten price points whose `ma50` went from 1 to 2. -/
theorem ma50_rising_characterization_witness :
    (analyze_technical_indicators
        [⟨none, some 1, none⟩, ⟨none, none, none⟩, ⟨none, none, none⟩,
         ⟨none, none, none⟩, ⟨none, none, none⟩, ⟨none, none, none⟩,
         ⟨none, none, none⟩, ⟨none, none, none⟩, ⟨none, none, none⟩,
         ⟨none, some 2, none⟩] (some 5)).ma50_rising = true :=
  ((ma50_rising_characterization
      [⟨none, some 1, none⟩, ⟨none, none, none⟩, ⟨none, none, none⟩,
       ⟨none, none, none⟩, ⟨none, none, none⟩, ⟨none, none, none⟩,
       ⟨none, none, none⟩, ⟨none, none, none⟩, ⟨none, none, none⟩,
       ⟨none, some 2, none⟩] 5).2 2 1 (by simp) rfl rfl).mpr (by norm_num)

/-- C8: on an empty price sequence or a missing current price,
`analyze_technical_indicators` returns the degraded result in which every
moving average and every deviation is absent and `ma50Rising` is the
boolean `false`; being a total function, the embedding returns this value
rather than raising. -/
theorem degraded_on_empty_or_missing_price (rows : List TechRow)
    (cp : Option ℚ) (h : rows = [] ∨ cp = none) :
    analyze_technical_indicators rows cp = degradedTech ∧
    degradedTech = ⟨none, none, none, none, none, none, false⟩ := by
  refine ⟨?_, rfl⟩
  rcases h with rfl | rfl
  · cases cp with
    | none => rfl
    | some p => rfl
  · rfl

/-- Witness for C8 at the empty sequence and missing price. -/
theorem degraded_on_empty_or_missing_price_witness :
    analyze_technical_indicators [] none = degradedTech ∧
    degradedTech = ⟨none, none, none, none, none, none, false⟩ :=
  degraded_on_empty_or_missing_price [] none (Or.inl rfl)

/-- Strict comparison on the sort key `ranking_score` used by
`rank_stocks`: `scoreGT y x` iff `y` scores strictly above `x`. -/
def scoreGT (y x : StockAnalysis) : Bool :=
  decide (x.ranking_score < y.ranking_score)

/-- The `for i, stock in enumerate(ranked_stocks): stock['rank'] = i + 1`
loop of `rank_stocks`: assign rank `i` to the head and continue with
`i + 1`. -/
def addRanks : Nat → List StockAnalysis → List StockAnalysis
  | _, [] => []
  | i, x :: xs => { x with rank := some i } :: addRanks (i + 1) xs

/-- `FinancialAnalyzer.rank_stocks`
(`src/financial_analyzer.py`, lines 195–208): stable sort by
`ranking_score` descending, then assign 1-based ranks. -/
def rank_stocks (analysis_results : List StockAnalysis) : List StockAnalysis :=
  addRanks 1 (sortDescBy scoreGT analysis_results)

/-- Forget the `rank` annotation, keeping every other field. -/
def eraseRank (x : StockAnalysis) : StockAnalysis := { x with rank := none }

theorem insertDescBy_scoreGT_pairwise (x : StockAnalysis)
    (m : List StockAnalysis)
    (hm : m.Pairwise (fun a b => b.ranking_score ≤ a.ranking_score)) :
    (insertDescBy scoreGT x m).Pairwise
      (fun a b => b.ranking_score ≤ a.ranking_score) := by
  induction m with
  | nil => simp [insertDescBy]
  | cons y ys ih =>
    rcases List.pairwise_cons.mp hm with ⟨hy, hys⟩
    unfold insertDescBy
    by_cases h : scoreGT y x
    · rw [if_pos h]
      have hxy : x.ranking_score ≤ y.ranking_score :=
        le_of_lt (by simpa [scoreGT] using h)
      refine List.pairwise_cons.mpr ⟨?_, ih hys⟩
      intro b hb
      rcases List.mem_cons.mp ((insertDescBy_perm scoreGT x ys).subset hb) with
        rfl | hbys
      · exact hxy
      · exact hy b hbys
    · rw [if_neg h]
      have hyx : y.ranking_score ≤ x.ranking_score :=
        le_of_not_lt (by simpa [scoreGT] using h)
      refine List.pairwise_cons.mpr ⟨?_, hm⟩
      intro b hb
      rcases List.mem_cons.mp hb with rfl | hbys
      · exact hyx
      · exact (hy b hbys).trans hyx

theorem sortDescBy_scoreGT_sorted (l : List StockAnalysis) :
    (sortDescBy scoreGT l).Pairwise
      (fun a b => b.ranking_score ≤ a.ranking_score) := by
  induction l with
  | nil => simp [sortDescBy]
  | cons x xs ih => exact insertDescBy_scoreGT_pairwise x _ ih

theorem filter_insertDescBy_scoreGT (s : ℚ) (x : StockAnalysis)
    (m : List StockAnalysis) :
    (insertDescBy scoreGT x m).filter (fun y => decide (y.ranking_score = s)) =
      if x.ranking_score = s
      then x :: m.filter (fun y => decide (y.ranking_score = s))
      else m.filter (fun y => decide (y.ranking_score = s)) := by
  induction m with
  | nil =>
    by_cases hx : x.ranking_score = s <;> simp [insertDescBy, List.filter, hx]
  | cons y ys ih =>
    unfold insertDescBy
    by_cases h : scoreGT y x
    · rw [if_pos h]
      have hlt : x.ranking_score < y.ranking_score := by simpa [scoreGT] using h
      by_cases hy : y.ranking_score = s <;> by_cases hx : x.ranking_score = s
      · exact absurd hlt (by rw [hx, hy]; exact lt_irrefl s)
      · simp [List.filter_cons, hy, hx, ih]
      · simp [List.filter_cons, hy, hx, ih]
      · simp [List.filter_cons, hy, hx, ih]
    · rw [if_neg h]
      by_cases hx : x.ranking_score = s <;> simp [List.filter_cons, hx]

theorem filter_sortDescBy_scoreGT (s : ℚ) (l : List StockAnalysis) :
    (sortDescBy scoreGT l).filter (fun y => decide (y.ranking_score = s)) =
      l.filter (fun y => decide (y.ranking_score = s)) := by
  induction l with
  | nil => rfl
  | cons x xs ih =>
    show (insertDescBy scoreGT x (sortDescBy scoreGT xs)).filter _ = _
    rw [filter_insertDescBy_scoreGT]
    by_cases hx : x.ranking_score = s
    · rw [if_pos hx, ih]
      simp [List.filter_cons, hx]
    · rw [if_neg hx, ih]
      simp [List.filter_cons, hx]

theorem addRanks_map_rank (i : Nat) (m : List StockAnalysis) :
    (addRanks i m).map (·.rank) =
      (List.range m.length).map (fun k => some (i + k)) := by
  induction m generalizing i with
  | nil => rfl
  | cons x xs ih =>
    simp only [addRanks, List.map_cons, ih, List.length_cons,
      List.range_succ_eq_map, List.map_map]
    refine congrArg (some (i + 0) :: ·) ?_
    refine List.map_congr_left ?_
    intro k _
    simp [Function.comp]
    omega

theorem addRanks_map_eraseRank (i : Nat) (m : List StockAnalysis) :
    (addRanks i m).map eraseRank = m.map eraseRank := by
  induction m generalizing i with
  | nil => rfl
  | cons x xs ih => simp [addRanks, eraseRank, ih]

theorem addRanks_map_score (i : Nat) (m : List StockAnalysis) :
    (addRanks i m).map (·.ranking_score) = m.map (·.ranking_score) := by
  induction m generalizing i with
  | nil => rfl
  | cons x xs ih => simp [addRanks, ih]

theorem addRanks_length (i : Nat) (m : List StockAnalysis) :
    (addRanks i m).length = m.length := by
  induction m generalizing i with
  | nil => rfl
  | cons x xs ih => simp [addRanks, ih]

theorem addRanks_rank_isSome (i : Nat) (m : List StockAnalysis) :
    (addRanks i m).all (fun y => y.rank.isSome) = true := by
  induction m generalizing i with
  | nil => rfl
  | cons x xs ih => simp [addRanks, ih]

/-- C9: `rank_stocks` orders by ranking score descending, annotates with
consecutive 1-based ranks `1..n`, and is stable: results with equal score
keep their input relative order (their score-filtered subsequences agree,
ranks aside). -/
theorem rank_stocks_sorted_stable_ranked (l : List StockAnalysis) :
    ((rank_stocks l).map (·.ranking_score)).Pairwise (fun a b => b ≤ a) ∧
    (rank_stocks l).map (·.rank) =
      (List.range l.length).map (fun k => some (k + 1)) ∧
    (∀ s : ℚ,
      ((rank_stocks l).map eraseRank).filter (fun y => decide (y.ranking_score = s)) =
        (l.map eraseRank).filter (fun y => decide (y.ranking_score = s))) := by
  refine ⟨?_, ?_, ?_⟩
  · rw [rank_stocks, addRanks_map_score]
    exact List.pairwise_map.mpr (sortDescBy_scoreGT_sorted l)
  · rw [rank_stocks, addRanks_map_rank, sortDescBy_length]
    refine List.map_congr_left ?_
    intro k _
    rw [Nat.add_comm]
  · intro s
    rw [rank_stocks, addRanks_map_eraseRank]
    rw [List.filter_map, List.filter_map]
    have hcomp :
        ((fun y => decide (y.ranking_score = s)) ∘ eraseRank) =
          (fun y : StockAnalysis => decide (y.ranking_score = s)) := rfl
    rw [hcomp, filter_sortDescBy_scoreGT]

/-- C10: `rank_stocks` returns a permutation of its input — same length,
each record appearing exactly once with every field other than `rank`
unchanged — and gives every record a present `rank`. -/
theorem rank_stocks_is_rank_annotated_permutation (l : List StockAnalysis) :
    ((rank_stocks l).map eraseRank).Perm (l.map eraseRank) ∧
    (rank_stocks l).length = l.length ∧
    (rank_stocks l).all (fun y => y.rank.isSome) = true := by
  refine ⟨?_, ?_, ?_⟩
  · rw [rank_stocks, addRanks_map_eraseRank]
    exact (sortDescBy_perm scoreGT l).map eraseRank
  · rw [rank_stocks, addRanks_length, sortDescBy_length]
  · rw [rank_stocks]
    exact addRanks_rank_isSome 1 _
